import Mathlib

/-!
Verification development for the Concourse execution-control plane:
the build Tracker (`atc/builds/tracker.go`), the per-build append-only
event log with streaming cursors, and the authorization accessor.

Go source is embedded shallowly: the Tracker's `sync.Map` in-flight
registry becomes a `Finset Nat` mutated by atomic operations, and
overlapping `Track()` invocations become an arbitrary interleaved trace
of those atomic operations.
-/

namespace Concourse

/-! ## Tracker (`atc/builds/tracker.go`)

`Tracker.running` is a `sync.Map` keyed by build id.  Its two uses are
`running.LoadOrStore(id, true)` (atomic check-and-insert, performed by
`Track()` for each started build) and `running.Delete(id)` (performed by
the dispatched goroutine's `defer` when the executor finishes).  Each
`sync.Map` call is atomic, so a concurrent execution is an interleaved
sequence of these operations. -/

/-- One atomic operation on the in-flight registry. -/
inductive TrackerOp where
  | loadOrStore (id : Nat)
  | deleteId (id : Nat)
deriving DecidableEq

/-- Apply one atomic registry operation.  `loadOrStore` returns
`some id` exactly when the id was absent and an executor is therefore
dispatched for it (tracker.go line 50); `deleteId` is the goroutine's
deferred removal (line 52). -/
def applyOp (s : Finset Nat) : TrackerOp → Finset Nat × Option Nat
  | .loadOrStore id => if id ∈ s then (s, none) else (insert id s, some id)
  | .deleteId id => (s.erase id, none)

/-- Run a trace of registry operations, collecting the dispatched ids. -/
def runOps (s : Finset Nat) : List TrackerOp → Finset Nat × List Nat
  | [] => (s, [])
  | op :: ops =>
    let (s', d) := applyOp s op
    let (s'', ds) := runOps s' ops
    (s'', d.toList ++ ds)

/-- Registry contents after the first `n` operations of a trace. -/
def stateAt (init : Finset Nat) (ops : List TrackerOp) (n : Nat) : Finset Nat :=
  (runOps init (ops.take n)).1

/-- The id dispatched by the `n`-th operation of a trace, if any. -/
def dispatchAt (init : Finset Nat) (ops : List TrackerOp) (n : Nat) : Option Nat :=
  match ops[n]? with
  | some op => (applyOp (stateAt init ops n) op).2
  | none => none

/-- Executor outcomes.  `panicked` stands for abnormal termination of the
goroutine body; Go runs deferred calls on that path too. -/
inductive Outcome where
  | success
  | failure
  | panicked
deriving DecidableEq

/-- The dispatched goroutine's body result (`engine.NewBuild(build).Run(...)`). -/
def executorBody : Outcome → Except String Unit
  | .success => .ok ()
  | .failure => .error "run failed"
  | .panicked => .error "goroutine terminated abnormally"

/-- The dispatched goroutine: whatever the body does, the deferred
`bt.running.Delete(build.ID())` runs on every exit path. -/
def runExecutor (s : Finset Nat) (id : Nat) (o : Outcome) :
    Finset Nat × Except String Unit :=
  (s.erase id, executorBody o)

/-- One `Track()` pass over the result of `GetAllStartedBuilds`:
on a listing error it returns the error having touched nothing; otherwise
it performs one `loadOrStore` per listed build.  Result: (registry after
the pass, ids dispatched this pass, error returned). -/
def track (s : Finset Nat) (lr : Except String (List Nat)) :
    Finset Nat × List Nat × Option String :=
  match lr with
  | .error e => (s, [], some e)
  | .ok builds =>
    let (s', ds) := runOps s (builds.map .loadOrStore)
    (s', ds, none)

/-! ### Trace lemmas for the registry -/

theorem runOps_append (s : Finset Nat) (l₁ l₂ : List TrackerOp) :
    runOps s (l₁ ++ l₂) = ((runOps (runOps s l₁).1 l₂).1,
      (runOps s l₁).2 ++ (runOps (runOps s l₁).1 l₂).2) := by
  induction l₁ generalizing s with
  | nil => simp [runOps]
  | cons op ops ih => simp [runOps, ih]

theorem stateAt_succ (init : Finset Nat) (ops : List TrackerOp) (n : Nat)
    (op : TrackerOp) (h : ops[n]? = some op) :
    stateAt init ops (n + 1) = (applyOp (stateAt init ops n) op).1 := by
  unfold stateAt
  rw [List.take_succ, h]
  simp [runOps_append, runOps]

theorem stateAt_succ_of_none (init : Finset Nat) (ops : List TrackerOp) (n : Nat)
    (h : ops[n]? = none) :
    stateAt init ops (n + 1) = stateAt init ops n := by
  unfold stateAt
  rw [List.take_succ, h]
  simp

/-- An id stays in the registry across any operation other than its own
deletion. -/
theorem mem_stateAt_succ (init : Finset Nat) (ops : List TrackerOp) (n : Nat)
    (id : Nat) (hmem : id ∈ stateAt init ops n)
    (hnotdel : ops[n]? ≠ some (.deleteId id)) :
    id ∈ stateAt init ops (n + 1) := by
  cases h : ops[n]? with
  | none => rw [stateAt_succ_of_none init ops n h]; exact hmem
  | some op =>
    rw [stateAt_succ init ops n op h]
    cases op with
    | loadOrStore id' =>
      by_cases hc : id' ∈ stateAt init ops n
      · simpa [applyOp, hc] using hmem
      · simp only [applyOp, hc, if_neg]
        exact Finset.mem_insert_of_mem hmem
    | deleteId id' =>
      have hne : id' ≠ id := by
        intro he; exact hnotdel (by rw [h, he])
      simp only [applyOp]
      exact Finset.mem_erase.mpr ⟨fun he => hne he.symm, hmem⟩

/-- A dispatch of `id` at step `i` leaves `id` in the registry. -/
theorem mem_stateAt_of_dispatch (init : Finset Nat) (ops : List TrackerOp)
    (i : Nat) (id : Nat) (h : dispatchAt init ops i = some id) :
    id ∈ stateAt init ops (i + 1) := by
  unfold dispatchAt at h
  cases hop : ops[i]? with
  | none => rw [hop] at h; exact absurd h (by simp)
  | some op =>
    rw [hop] at h
    cases op with
    | deleteId id' => simp [applyOp] at h
    | loadOrStore id' =>
      by_cases hc : id' ∈ stateAt init ops i
      · simp [applyOp, hc] at h
      · simp only [applyOp, hc, if_neg] at h
        have : id' = id := by simpa using h
        subst this
        rw [stateAt_succ init ops i _ hop]
        simp [applyOp, hc]

/-- While an id is in the registry, `loadOrStore` for it dispatches
nothing, and no other operation dispatches it either. -/
theorem dispatchAt_ne_of_mem (init : Finset Nat) (ops : List TrackerOp)
    (j : Nat) (id : Nat) (hmem : id ∈ stateAt init ops j) :
    dispatchAt init ops j ≠ some id := by
  unfold dispatchAt
  cases hop : ops[j]? with
  | none => simp
  | some op =>
    cases op with
    | deleteId id' => simp [applyOp]
    | loadOrStore id' =>
      by_cases hc : id' ∈ stateAt init ops j
      · simp [applyOp, hc]
      · simp only [applyOp, hc, if_neg]
        intro he
        have : id' = id := by simpa using he
        exact hc (this ▸ hmem)

/-- If a build id is absent from the registry, a `Track()` pass that
lists it dispatches it. -/
theorem mem_dispatched_of_not_mem (s : Finset Nat) (builds : List Nat) (id : Nat)
    (hb : id ∈ builds) (hs : id ∉ s) :
    id ∈ (runOps s (builds.map .loadOrStore)).2 := by
  induction builds generalizing s with
  | nil => cases hb
  | cons b bs ih =>
    simp only [List.map_cons, runOps]
    by_cases hc : b ∈ s
    · have hbne : id ≠ b := fun he => hs (he ▸ hc)
      have hb' : id ∈ bs := by
        rcases List.mem_cons.mp hb with h | h
        · exact absurd h hbne
        · exact h
      simpa [applyOp, hc] using ih s hb' hs
    · by_cases he : id = b
      · subst he
        simp [applyOp, hc]
      · have hb' : id ∈ bs := by
          rcases List.mem_cons.mp hb with h | h
          · exact absurd h he
          · exact h
        have hs' : id ∉ insert b s := by
          intro hmem
          rcases Finset.mem_insert.mp hmem with h | h
          · exact he h
          · exact hs h
        simpa [applyOp, hc] using Or.inr (ih (insert b s) hb' hs')

/-- C1: for any build id, once an executor for that id has been
dispatched (a `loadOrStore` that found the id absent), no later atomic
registry operation dispatches that id again until the executor's
deferred `Delete` for it has run.  Overlapping `Track()` invocations are
arbitrary interleavings of the atomic operations, so no two of them can
both dispatch the same id. -/
theorem track_dedup_c1 (init : Finset Nat) (ops : List TrackerOp) (i j id : Nat)
    (hij : i < j)
    (hdisp : dispatchAt init ops i = some id)
    (hnodel : ∀ k, i < k → k < j → ops[k]? ≠ some (.deleteId id)) :
    dispatchAt init ops j ≠ some id := by
  have h1 : id ∈ stateAt init ops (i + 1) :=
    mem_stateAt_of_dispatch init ops i id hdisp
  have key : ∀ m, i + 1 + m ≤ j → id ∈ stateAt init ops (i + 1 + m) := by
    intro m
    induction m with
    | zero => intro _; exact h1
    | succ m ih =>
      intro hle
      have hbound : i + 1 + m < j := by omega
      exact mem_stateAt_succ init ops (i + 1 + m) id (ih (by omega))
        (hnodel (i + 1 + m) (by omega) hbound)
  have hj : id ∈ stateAt init ops j := by
    have := key (j - (i + 1)) (by omega)
    rwa [show i + 1 + (j - (i + 1)) = j by omega] at this
  exact dispatchAt_ne_of_mem init ops j id hj

/-- Witness for C1: two overlapping `loadOrStore` operations for build 1
with no intervening delete; the second does not dispatch. -/
theorem track_dedup_c1_witness :
    dispatchAt (∅ : Finset Nat)
      [TrackerOp.loadOrStore 1, TrackerOp.loadOrStore 1] 1 ≠ some 1 :=
  track_dedup_c1 ∅ [TrackerOp.loadOrStore 1, TrackerOp.loadOrStore 1] 0 1 1
    (by decide) (by decide) (by intro k h1 h2; omega)

/-- C2: whatever the executor's outcome (success, failure, or abnormal
termination), the deferred delete removes its build id from the
registry, and a subsequent `Track()` pass that still lists the build as
started dispatches a new executor for it. -/
theorem executor_cleanup_c2 (s : Finset Nat) (id : Nat) (o : Outcome)
    (builds : List Nat) (hmem : id ∈ builds) :
    id ∉ (runExecutor s id o).1 ∧
      id ∈ (track (runExecutor s id o).1 (.ok builds)).2.1 := by
  constructor
  · exact Finset.not_mem_erase id s
  · simp only [track, runExecutor]
    exact mem_dispatched_of_not_mem (s.erase id) builds id hmem
      (Finset.not_mem_erase id s)

/-- Witness for C2: build 1's executor terminates abnormally; its entry
is gone and the next pass re-dispatches it. -/
theorem executor_cleanup_c2_witness :
    1 ∉ (runExecutor {1} 1 .panicked).1 ∧
      1 ∈ (track (runExecutor {1} 1 .panicked).1 (.ok [1])).2.1 :=
  executor_cleanup_c2 {1} 1 .panicked [1] (by decide)

/-- C3: a `Track()` pass returns an error exactly when listing the
started builds failed, and in that case the pass dispatches nothing and
leaves the registry untouched. -/
theorem track_fail_closed_c3 (s : Finset Nat) (lr : Except String (List Nat)) :
    ((track s lr).2.2 ≠ none ↔ ∃ e, lr = .error e) ∧
      (∀ e, lr = .error e → track s lr = (s, [], some e)) := by
  cases lr with
  | error e =>
    refine ⟨⟨fun _ => ⟨e, rfl⟩, fun _ => by simp [track]⟩, ?_⟩
    intro e' he'
    cases he'
    rfl
  | ok builds =>
    refine ⟨⟨fun h => absurd rfl h, ?_⟩, ?_⟩
    · rintro ⟨e, he⟩
      cases he
    · intro e he
      cases he

/-- Witness for C3: a failed listing leaves an arbitrary registry
unchanged and dispatches nothing. -/
theorem track_fail_closed_c3_witness :
    track ({2, 3} : Finset Nat) (.error "db error") = ({2, 3}, [], some "db error") :=
  (track_fail_closed_c3 {2, 3} (.error "db error")).2 "db error" rfl

/-! ## Build Store and Event Log

The repository ships only the shared behavioural test suite
(`dbSharedBehavior`) for the Build Store / Event Log; the implementation
itself is not among the source files.  The definitions below are
therefore modelled from the spec (§3, §4.2, §4.3) and checked against
the behaviours the test suite pins down. -/

/-- Build status.  `pending` at creation; `started` via the guarded
start transition; exactly one of the four terminal statuses afterwards. -/
inductive BuildStatus where
  | pending
  | started
  | succeeded
  | failed
  | errored
  | aborted
deriving DecidableEq

/-- Terminal statuses are final: no further transitions. -/
def BuildStatus.isTerminal : BuildStatus → Bool
  | .succeeded => true
  | .failed => true
  | .errored => true
  | .aborted => true
  | _ => false

/-- An event payload: an opaque log chunk, a synthesized status event
(status plus Unix-epoch-seconds time), or an engine-defined event stored
and replayed verbatim. -/
inductive Event where
  | log (payload : String)
  | status (st : BuildStatus) (time : Nat)
  | engineDefined (kind payload : String)
deriving DecidableEq

/-- A persisted build event: the payload together with the sequence
number the Event Log assigned to it. -/
structure EventRec where
  seq : Nat
  ev : Event
deriving DecidableEq

/-- Modelled from the spec: a Build record (§3).  Identity is a
process-wide-unique integer id; the display name is a sequence number
scoped to a job or to the one-off namespace; start/end times are
Unix-epoch seconds recorded by the guarded transitions. -/
structure BuildRec where
  id : Nat
  name : String
  jobName : Option String
  status : BuildStatus
  startTime : Option Nat
  endTime : Option Nat
  engine : String
  engineMetadata : String
deriving DecidableEq

/-- Modelled from the spec: the Build Store plus per-build Event Log
state (§2, §4.2).  `logs` maps a build id to its append-only event
list; `nextID` is the id counter (first build gets id 1); `oneOffCount`
and `jobCounts` are the per-namespace display-name counters. -/
structure Store where
  builds : List BuildRec
  logs : Nat → List EventRec
  nextID : Nat
  oneOffCount : Nat
  jobCounts : String → Nat

/-- A fresh Build Store. -/
def emptyStore : Store :=
  { builds := []
    logs := fun _ => []
    nextID := 1
    oneOffCount := 0
    jobCounts := fun _ => 0 }

/-- Modelled from the spec: `SaveBuildEvent` (§4.2) appends one event to
the named build's log; the Event Log itself assigns the next sequence
number for that build (the caller supplies only the payload). -/
def saveBuildEvent (s : Store) (buildID : Nat) (ev : Event) : Store :=
  { s with logs := fun b =>
      if b = buildID then s.logs b ++ [⟨(s.logs buildID).length, ev⟩]
      else s.logs b }

/-- Modelled from the spec: `CreateOneOffBuild` (§3).  The new build is
`pending`, has no job name, and is named by the one-off namespace
counter; it gets the next process-wide id. -/
def createOneOffBuild (s : Store) : BuildRec × Store :=
  let b : BuildRec :=
    { id := s.nextID
      name := toString (s.oneOffCount + 1)
      jobName := none
      status := .pending
      startTime := none
      endTime := none
      engine := ""
      engineMetadata := "" }
  (b, { s with
          builds := b :: s.builds
          nextID := s.nextID + 1
          oneOffCount := s.oneOffCount + 1 })

/-- Modelled from the spec: `CreateJobBuild` (§3).  Like one-off
creation but named by the job's own counter. -/
def createJobBuild (s : Store) (job : String) : BuildRec × Store :=
  let b : BuildRec :=
    { id := s.nextID
      name := toString (s.jobCounts job + 1)
      jobName := some job
      status := .pending
      startTime := none
      endTime := none
      engine := ""
      engineMetadata := "" }
  (b, { s with
          builds := b :: s.builds
          nextID := s.nextID + 1
          jobCounts := fun j => if j = job then s.jobCounts j + 1 else s.jobCounts j })

/-- Look a build up by id. -/
def findBuild (s : Store) (id : Nat) : Option BuildRec :=
  s.builds.find? (fun b => b.id = id)

/-- Replace the build with the given id. -/
def updateBuild (s : Store) (id : Nat) (f : BuildRec → BuildRec) : Store :=
  { s with builds := s.builds.map (fun b => if b.id = id then f b else b) }

/-- Modelled from the spec: `StartBuild` (§3, §4.2).  Guarded transition
`pending → started`: records engine name/metadata and the start time,
and as part of the same operation appends a synthesized `Status` event
carrying the new status and the wall-clock time; returns `false` and
changes nothing if the build was not `pending` (or does not exist). -/
def startBuild (s : Store) (id : Nat) (eng meta : String) (now : Nat) :
    Store × Bool :=
  match findBuild s id with
  | none => (s, false)
  | some b =>
    if b.status = .pending then
      let s' := updateBuild s id (fun b =>
        { b with status := .started, startTime := some now,
                 engine := eng, engineMetadata := meta })
      (saveBuildEvent s' id (.status .started now), true)
    else (s, false)

/-- Modelled from the spec: `FinishBuild` (§3, §4.2).  Guarded
transition from `started` to one terminal status: records the end time
and appends a synthesized `Status` event with the new status and the
wall-clock time; changes nothing otherwise. -/
def finishBuild (s : Store) (id : Nat) (st : BuildStatus) (now : Nat) :
    Store × Bool :=
  match findBuild s id with
  | none => (s, false)
  | some b =>
    if b.status = .started ∧ st.isTerminal then
      let s' := updateBuild s id (fun b =>
        { b with status := st, endTime := some now })
      (saveBuildEvent s' id (.status st now), true)
    else (s, false)

/-- One Build Store / Event Log operation, for quantifying over every
reachable store. -/
inductive StoreOp where
  | createOneOff
  | createJob (job : String)
  | saveEvent (buildID : Nat) (ev : Event)
  | start (buildID : Nat) (eng meta : String) (now : Nat)
  | finish (buildID : Nat) (st : BuildStatus) (now : Nat)
deriving DecidableEq

/-- Apply one operation (discarding returned values). -/
def applyStoreOp (s : Store) : StoreOp → Store
  | .createOneOff => (createOneOffBuild s).2
  | .createJob job => (createJobBuild s job).2
  | .saveEvent buildID ev => saveBuildEvent s buildID ev
  | .start buildID eng meta now => (startBuild s buildID eng meta now).1
  | .finish buildID st now => (finishBuild s buildID st now).1

/-- The store reached from a fresh one by a sequence of operations —
any interleaving of concurrent callers is some such sequence, since each
operation's critical section is serialized per build. -/
def runStore (ops : List StoreOp) : Store :=
  ops.foldl applyStoreOp emptyStore

/-! ### Stream cursors -/

/-- Cursor lifecycle (§4.3): `Open → EndOfStream` (terminal, reached
automatically) or `Open → Closed` (terminal, reached explicitly). -/
inductive CursorState where
  | open
  | eos
  | closedSt
deriving DecidableEq

/-- Modelled from the spec: a Stream cursor (§3, §4.3) — one
subscriber's read position over one build's event log. -/
structure Cursor where
  buildID : Nat
  offset : Nat
  state : CursorState
deriving DecidableEq

/-- Modelled from the spec: `GetBuildEvents(buildID, fromSeq)` (§4.2)
returns an open cursor at `fromSeq`; any non-negative offset is valid,
including one beyond the last persisted event. -/
def getBuildEvents (buildID fromSeq : Nat) : Cursor :=
  ⟨buildID, fromSeq, .open⟩

/-- What one `Next()` call yields: an event, the end-of-stream signal
(`ErrEndOfBuildEventStream`), the closed-stream signal
(`ErrBuildEventStreamClosed`), or suspension of the caller until more
events arrive (`blocked`). -/
inductive NextResult where
  | ev (e : Event)
  | endOfStream
  | closedStream
  | blocked
deriving DecidableEq

/-- Is this event a synthesized terminal `Status` event? -/
def isTerminalStatus : Event → Bool
  | .status st _ => st.isTerminal
  | _ => false

/-- Modelled from the spec: `Next()` (§4.3).  A closed cursor keeps
returning the closed-stream signal; a cursor past end-of-stream keeps
returning the end-of-stream signal.  Otherwise: if an event exists at
the current offset it is returned and the offset advances (pure replay,
never blocks); if the cursor has caught up and the event just retrieved
was a terminal `Status` event, it returns end-of-stream; otherwise the
caller is suspended. -/
def next (s : Store) (c : Cursor) : NextResult × Cursor :=
  match c.state with
  | .closedSt => (.closedStream, c)
  | .eos => (.endOfStream, c)
  | .open =>
    match (s.logs c.buildID)[c.offset]? with
    | some er => (.ev er.ev, { c with offset := c.offset + 1 })
    | none =>
      match (s.logs c.buildID)[c.offset - 1]? with
      | some er =>
        if 0 < c.offset ∧ isTerminalStatus er.ev then
          (.endOfStream, { c with state := .eos })
        else (.blocked, c)
      | none => (.blocked, c)

/-- Modelled from the spec: `Close()` (§4.3) marks the cursor closed; it
does not touch the log or other cursors. -/
def closeCursor (c : Cursor) : Cursor :=
  { c with state := .closedSt }

/-- Repeatedly call `Next()` up to `n` times against a fixed store,
collecting the events delivered; stops at the first non-event answer. -/
def replay (s : Store) : Cursor → Nat → List Event × Cursor
  | c, 0 => ([], c)
  | c, n + 1 =>
    match next s c with
    | (.ev e, c') =>
      let (es, c'') := replay s c' n
      (e :: es, c'')
    | (_, c') => ([], c')

/-! ### Event Log invariants (C4) -/

/-- Per-build sequence numbers are exactly 0, 1, …, length−1. -/
def seqOK (s : Store) : Prop :=
  ∀ id, (s.logs id).map EventRec.seq = List.range (s.logs id).length

theorem saveBuildEvent_logs (s : Store) (b : Nat) (ev : Event) (id : Nat) :
    (saveBuildEvent s b ev).logs id =
      if id = b then s.logs id ++ [⟨(s.logs b).length, ev⟩] else s.logs id := rfl

theorem updateBuild_logs (s : Store) (id : Nat) (f : BuildRec → BuildRec) :
    (updateBuild s id f).logs = s.logs := rfl

theorem seqOK_saveBuildEvent (s : Store) (b : Nat) (ev : Event)
    (h : seqOK s) : seqOK (saveBuildEvent s b ev) := by
  intro id
  rw [saveBuildEvent_logs]
  by_cases hid : id = b
  · subst hid
    simp [h id, List.range_succ]
  · simp [hid, h id]

theorem seqOK_applyStoreOp (s : Store) (op : StoreOp) (h : seqOK s) :
    seqOK (applyStoreOp s op) := by
  cases op with
  | createOneOff => exact h
  | createJob job => exact h
  | saveEvent b ev => exact seqOK_saveBuildEvent s b ev h
  | start b eng meta now =>
    simp only [applyStoreOp, startBuild]
    cases findBuild s b with
    | none => exact h
    | some bld =>
      by_cases hp : bld.status = .pending
      · simp only [hp, if_pos]
        exact seqOK_saveBuildEvent _ b _ (fun id => h id)
      · simpa [hp] using h
  | finish b st now =>
    simp only [applyStoreOp, finishBuild]
    cases findBuild s b with
    | none => exact h
    | some bld =>
      by_cases hp : bld.status = .started ∧ st.isTerminal
      · simp only [hp, if_pos]
        exact seqOK_saveBuildEvent _ b _ (fun id => h id)
      · simpa [hp] using h

theorem seqOK_foldl (ops : List StoreOp) (s : Store) (h : seqOK s) :
    seqOK (ops.foldl applyStoreOp s) := by
  induction ops generalizing s with
  | nil => exact h
  | cons op ops ih => exact ih _ (seqOK_applyStoreOp s op h)

/-- Every operation only ever appends to a build's log. -/
theorem applyStoreOp_logs_extends (s : Store) (op : StoreOp) (id : Nat) :
    ∃ t, (applyStoreOp s op).logs id = s.logs id ++ t := by
  cases op with
  | createOneOff => exact ⟨[], by simp [applyStoreOp, createOneOffBuild]⟩
  | createJob job => exact ⟨[], by simp [applyStoreOp, createJobBuild]⟩
  | saveEvent b ev =>
    by_cases hid : id = b
    · exact ⟨[⟨(s.logs b).length, ev⟩], by simp [applyStoreOp, saveBuildEvent_logs, hid]⟩
    · exact ⟨[], by simp [applyStoreOp, saveBuildEvent_logs, hid]⟩
  | start b eng meta now =>
    simp only [applyStoreOp, startBuild]
    cases findBuild s b with
    | none => exact ⟨[], by simp⟩
    | some bld =>
      by_cases hp : bld.status = .pending
      · simp only [hp, if_pos]
        by_cases hid : id = b
        · exact ⟨[⟨(s.logs b).length, .status .started now⟩],
            by simp [saveBuildEvent_logs, updateBuild_logs, hid]⟩
        · exact ⟨[], by simp [saveBuildEvent_logs, updateBuild_logs, hid]⟩
      · exact ⟨[], by simp [hp]⟩
  | finish b st now =>
    simp only [applyStoreOp, finishBuild]
    cases findBuild s b with
    | none => exact ⟨[], by simp⟩
    | some bld =>
      by_cases hp : bld.status = .started ∧ st.isTerminal
      · simp only [hp, if_pos]
        by_cases hid : id = b
        · exact ⟨[⟨(s.logs b).length, .status st now⟩],
            by simp [saveBuildEvent_logs, updateBuild_logs, hid]⟩
        · exact ⟨[], by simp [saveBuildEvent_logs, updateBuild_logs, hid]⟩
      · exact ⟨[], by simp [hp]⟩

/-- C4: in every reachable store, every build's event sequence numbers
are exactly 0, 1, …, n−1 — assigned by the Event Log (a caller's
`SaveBuildEvent` carries only the payload), with no gaps and no
duplicates — and every further operation leaves the already-written
events (sequence numbers and payloads) untouched, only appending. -/
theorem eventlog_seq_c4 (ops : List StoreOp) (id : Nat) :
    ((runStore ops).logs id).map EventRec.seq =
        List.range ((runStore ops).logs id).length ∧
      ∀ op, ∃ t, (applyStoreOp (runStore ops) op).logs id =
        (runStore ops).logs id ++ t := by
  constructor
  · exact seqOK_foldl ops emptyStore (fun _ => rfl) id
  · exact fun op => applyStoreOp_logs_extends (runStore ops) op id

/-! ### Replay (C5) -/

theorem replay_open_eq (s : Store) (id : Nat) : ∀ (n fromSeq : Nat),
    (replay s ⟨id, fromSeq, .open⟩ n).1 =
      (((s.logs id).drop fromSeq).take n).map EventRec.ev := by
  intro n
  induction n with
  | zero => intro fromSeq; simp [replay]
  | succ n ih =>
    intro fromSeq
    cases h : (s.logs id)[fromSeq]? with
    | some er =>
      obtain ⟨hlt, hget⟩ := List.getElem?_eq_some_iff.mp h
      have hdrop : (s.logs id).drop fromSeq =
          er :: (s.logs id).drop (fromSeq + 1) := by
        rw [List.drop_eq_getElem_cons hlt, hget]
      have hnext : next s ⟨id, fromSeq, .open⟩ =
          (.ev er.ev, ⟨id, fromSeq + 1, .open⟩) := by
        simp [next, h]
      simp [replay, hnext, ih (fromSeq + 1), hdrop]
    | none =>
      have hge : (s.logs id).length ≤ fromSeq := List.getElem?_eq_none_iff.mp h
      have hdrop : (s.logs id).drop fromSeq = [] := List.drop_eq_nil_of_le hge
      have hrepl : (replay s ⟨id, fromSeq, .open⟩ (n + 1)).1 = [] := by
        unfold replay next
        simp only [h]
        cases h2 : (s.logs id)[fromSeq - 1]? with
        | some er =>
          by_cases hterm : 0 < fromSeq ∧ isTerminalStatus er.ev <;> simp [hterm]
        | none => simp
      simp [hrepl, hdrop]

/-- C5: a cursor created by `GetBuildEvents(buildID, fromSeq)`, for any
non-negative `fromSeq` (including one beyond the last persisted event),
delivers exactly the events at offsets `fromSeq`, `fromSeq+1`, … in
append order; the answer is a function of the persisted log and the
starting offset alone, so any number of cursors started at the same
offset observe identical, identically-ordered sequences. -/
theorem stream_replay_c5 (s : Store) (id fromSeq n : Nat) :
    (replay s (getBuildEvents id fromSeq) n).1 =
      (((s.logs id).drop fromSeq).take n).map EventRec.ev :=
  replay_open_eq s id n fromSeq

/-! ### Status-event synthesis (C6) -/

theorem saveBuildEvent_builds (s : Store) (b : Nat) (ev : Event) :
    (saveBuildEvent s b ev).builds = s.builds := rfl

theorem find?_update_builds (l : List BuildRec) (id : Nat)
    (f : BuildRec → BuildRec) (hf : ∀ b, (f b).id = b.id) :
    (l.map (fun b => if b.id = id then f b else b)).find? (fun b => b.id = id) =
      (l.find? (fun b => b.id = id)).map
        (fun b => if b.id = id then f b else b) := by
  induction l with
  | nil => rfl
  | cons b bs ih =>
    by_cases h : b.id = id
    · simp [List.find?, h, hf b]
    · simp [List.find?, h, ih]

theorem findBuild_updateBuild (s : Store) (id : Nat) (f : BuildRec → BuildRec)
    (hf : ∀ b, (f b).id = b.id) :
    findBuild (updateBuild s id f) id = (findBuild s id).map
      (fun b => if b.id = id then f b else b) :=
  find?_update_builds s.builds id f hf

/-- C6: whenever the `started` transition succeeds, it appends — as part
of the same operation — exactly one synthesized `Status` event carrying
the new status and the transition's wall-clock time, which is also the
build's recorded start time; likewise every successful terminal
transition appends exactly one `Status` event with the terminal status
and the recorded end time. -/
theorem status_event_synthesis_c6 (s : Store) (id : Nat) (eng meta : String)
    (now : Nat) (st : BuildStatus) :
    ((startBuild s id eng meta now).2 = true →
      (startBuild s id eng meta now).1.logs id =
          s.logs id ++ [⟨(s.logs id).length, .status .started now⟩] ∧
        (findBuild (startBuild s id eng meta now).1 id).map BuildRec.startTime =
          some (some now)) ∧
    ((finishBuild s id st now).2 = true →
      st.isTerminal = true ∧
        (finishBuild s id st now).1.logs id =
          s.logs id ++ [⟨(s.logs id).length, .status st now⟩] ∧
        (findBuild (finishBuild s id st now).1 id).map BuildRec.endTime =
          some (some now)) := by
  constructor
  · intro hsucc
    cases hfb : findBuild s id with
    | none =>
      simp only [startBuild, hfb] at hsucc
      exact absurd hsucc (by simp)
    | some b =>
      have hbid : b.id = id := by
        have := List.find?_some hfb
        simpa using this
      by_cases hp : b.status = .pending
      · constructor
        · simp only [startBuild, hfb, if_pos hp]
          simp [saveBuildEvent_logs, updateBuild_logs]
        · simp only [startBuild, hfb, if_pos hp]
          have h1 : findBuild (saveBuildEvent (updateBuild s id
              (fun b => { b with status := .started,
                                 startTime := some now,
                                 engine := eng,
                                 engineMetadata := meta })) id
              (.status .started now)) id =
            findBuild (updateBuild s id
              (fun b => { b with status := .started,
                                 startTime := some now,
                                 engine := eng,
                                 engineMetadata := meta })) id := rfl
          rw [h1, findBuild_updateBuild s id
            (fun b => { b with status := .started,
                               startTime := some now,
                               engine := eng,
                               engineMetadata := meta })
            (fun _ => rfl), hfb]
          simp [hbid]
      · exfalso
        simp only [startBuild, hfb] at hsucc
        rw [if_neg hp] at hsucc
        exact absurd hsucc (by simp)
  · intro hsucc
    cases hfb : findBuild s id with
    | none =>
      simp only [finishBuild, hfb] at hsucc
      exact absurd hsucc (by simp)
    | some b =>
      have hbid : b.id = id := by
        have := List.find?_some hfb
        simpa using this
      by_cases hp : b.status = .started ∧ st.isTerminal
      · refine ⟨hp.2, ?_, ?_⟩
        · simp only [finishBuild, hfb, if_pos hp]
          simp [saveBuildEvent_logs, updateBuild_logs]
        · simp only [finishBuild, hfb, if_pos hp]
          have h1 : findBuild (saveBuildEvent (updateBuild s id
              (fun b => { b with status := st, endTime := some now })) id
              (.status st now)) id =
            findBuild (updateBuild s id
              (fun b => { b with status := st, endTime := some now })) id := rfl
          rw [h1, findBuild_updateBuild s id
            (fun b => { b with status := st, endTime := some now })
            (fun _ => rfl), hfb]
          simp [hbid]
      · exfalso
        simp only [finishBuild, hfb] at hsucc
        rw [if_neg hp] at hsucc
        exact absurd hsucc (by simp)

/-- Witness for C6: build 1 of a fresh store is started at time 100 and
finished `succeeded` at time 200; each transition appends exactly its
one synthesized `Status` event. -/
theorem status_event_synthesis_c6_witness :
    ((startBuild (createOneOffBuild emptyStore).2 1 "eng" "meta" 100).1.logs 1 =
        (createOneOffBuild emptyStore).2.logs 1 ++
          [⟨0, .status .started 100⟩] ∧
      (findBuild
          (startBuild (createOneOffBuild emptyStore).2 1 "eng" "meta" 100).1
          1).map BuildRec.startTime = some (some 100)) ∧
    (BuildStatus.succeeded.isTerminal = true ∧
      (finishBuild
          (startBuild (createOneOffBuild emptyStore).2 1 "eng" "meta" 100).1
          1 .succeeded 200).1.logs 1 =
        (startBuild (createOneOffBuild emptyStore).2 1 "eng" "meta" 100).1.logs 1
          ++ [⟨1, .status .succeeded 200⟩] ∧
      (findBuild
          (finishBuild
            (startBuild (createOneOffBuild emptyStore).2 1 "eng" "meta" 100).1
            1 .succeeded 200).1 1).map BuildRec.endTime = some (some 200)) :=
  ⟨(status_event_synthesis_c6 (createOneOffBuild emptyStore).2 1 "eng" "meta"
      100 .succeeded).1 rfl,
   (status_event_synthesis_c6
      (startBuild (createOneOffBuild emptyStore).2 1 "eng" "meta" 100).1 1
      "" "" 200 .succeeded).2 rfl⟩

/-! ### Terminal stream signals (C7) -/

/-- C7: end-of-stream and closed-stream are distinct signals and both
are absorbing: once `Next()` has answered one of them the cursor keeps
answering the same signal (never blocking), and after `Close()` every
`Next()` answers the closed-stream signal. -/
theorem stream_terminal_absorbing_c7 (s : Store) (c : Cursor) :
    NextResult.endOfStream ≠ NextResult.closedStream ∧
      ((next s c).1 = .endOfStream →
        next s (next s c).2 = (.endOfStream, (next s c).2)) ∧
      ((next s c).1 = .closedStream →
        next s (next s c).2 = (.closedStream, (next s c).2)) ∧
      next s (closeCursor c) = (.closedStream, closeCursor c) := by
  obtain ⟨bid, off, st⟩ := c
  refine ⟨by decide, ?_, ?_, rfl⟩ <;>
  · cases st with
    | closedSt => simp [next]
    | eos => simp [next]
    | «open» =>
      simp only [next]
      cases hg : (s.logs bid)[off]? with
      | some er => simp
      | none =>
        cases hg2 : (s.logs bid)[off - 1]? with
        | some er =>
          by_cases ht : 0 < off ∧ isTerminalStatus er.ev = true
          · simp [ht, next]
          · simp [ht]
        | none => simp

/-- A store whose build 1 has already emitted its terminal `Status`
event; used to exercise the end-of-stream signal. -/
def finishedStore : Store :=
  { emptyStore with
      logs := fun b => if b = 1 then [⟨0, .status .succeeded 5⟩] else [] }

/-- Witness for C7: a caught-up cursor on a finished build keeps
answering end-of-stream, and a closed cursor keeps answering
closed-stream. -/
theorem stream_terminal_absorbing_c7_witness :
    next finishedStore (next finishedStore ⟨1, 1, .open⟩).2 =
        (.endOfStream, (next finishedStore ⟨1, 1, .open⟩).2) ∧
      next finishedStore (next finishedStore (closeCursor ⟨1, 0, .open⟩)).2 =
        (.closedStream, (next finishedStore (closeCursor ⟨1, 0, .open⟩)).2) :=
  ⟨(stream_terminal_absorbing_c7 finishedStore ⟨1, 1, .open⟩).2.1 rfl,
   (stream_terminal_absorbing_c7 finishedStore
      (closeCursor ⟨1, 0, .open⟩)).2.2.1 rfl⟩

/-! ### Wake-on-write (C8) -/

/-- C8 as stated is false: `GetBuildEvents` admits a starting offset
beyond the last persisted event, and such a cursor blocks without being
satisfiable by the next append.  Concretely, a cursor blocked at offset
5 of build 1's empty log is still blocked after `SaveBuildEvent`
persists the event with sequence number 0, so not every cursor blocked
on the build receives the newly appended event. -/
theorem stream_wake_c8_counterexample :
    next emptyStore ⟨1, 5, .open⟩ = (.blocked, ⟨1, 5, .open⟩) ∧
      (next (saveBuildEvent emptyStore 1 (.log "hello")) ⟨1, 5, .open⟩).1 =
        .blocked := by
  constructor <;> rfl

/-- C8 amended: after `SaveBuildEvent` for build X returns, every cursor
blocked on X whose read offset equals the new event's assigned sequence
number (the log tail at the time of the append) receives exactly the
newly appended event on its pending `Next()` call, without re-polling. -/
theorem stream_wake_c8 (s : Store) (X : Nat) (ev : Event) (c : Cursor)
    (hopen : c.state = .open) (hb : c.buildID = X)
    (hoff : c.offset = (s.logs X).length) :
    next (saveBuildEvent s X ev) c =
      (.ev ev, { c with offset := c.offset + 1 }) := by
  obtain ⟨bid, off, st⟩ := c
  cases hopen
  cases hb
  have hoff' : off = (s.logs bid).length := hoff
  subst hoff'
  simp [next, saveBuildEvent_logs, List.getElem?_concat_length]

/-- Witness for C8: a cursor blocked at the tail (offset 0 of an empty
log) receives the event appended there. -/
theorem stream_wake_c8_witness :
    next (saveBuildEvent emptyStore 1 (.log "hello")) ⟨1, 0, .open⟩ =
      (.ev (.log "hello"), ⟨1, 1, .open⟩) :=
  stream_wake_c8 emptyStore 1 (.log "hello") ⟨1, 0, .open⟩ rfl rfl rfl

/-! ### One-off build naming (C9) -/

/-- How many one-off builds a sequence of operations creates. -/
def numOneOffs (ops : List StoreOp) : Nat :=
  ops.countP fun op => op = .createOneOff

theorem applyStoreOp_oneOffCount (s : Store) (op : StoreOp) :
    (applyStoreOp s op).oneOffCount =
      s.oneOffCount + (if op = .createOneOff then 1 else 0) := by
  cases op with
  | createOneOff => rfl
  | createJob j => simp [applyStoreOp, createJobBuild]
  | saveEvent b ev => simp [applyStoreOp, saveBuildEvent]
  | start b e m n =>
    simp only [applyStoreOp, startBuild]
    cases findBuild s b with
    | none => simp
    | some bld =>
      by_cases hp : bld.status = .pending <;>
        simp [hp, saveBuildEvent, updateBuild]
  | finish b stt n =>
    simp only [applyStoreOp, finishBuild]
    cases findBuild s b with
    | none => simp
    | some bld =>
      by_cases hp : bld.status = .started ∧ stt.isTerminal <;>
        simp [hp, saveBuildEvent, updateBuild]

theorem oneOffCount_foldl : ∀ (ops : List StoreOp) (s : Store),
    (ops.foldl applyStoreOp s).oneOffCount = s.oneOffCount + numOneOffs ops := by
  intro ops
  induction ops with
  | nil => intro s; simp [numOneOffs]
  | cons op ops ih =>
    intro s
    simp only [List.foldl_cons, ih, applyStoreOp_oneOffCount, numOneOffs,
      List.countP_cons]
    by_cases h : op = .createOneOff
    · simp [h, numOneOffs]
      omega
    · simp [h, numOneOffs]

/-- C9: the first one-off build of a fresh store has id 1, display name
"1", no job name, and status pending; and after any sequence of
operations — including job-scoped build creations — the next one-off
creation is named by the count of one-off creations so far plus one,
i.e. the one-off namespace advances "1", "2", "3", … independently of
job-scoped names. -/
theorem one_off_names_c9 :
    ((createOneOffBuild emptyStore).1.id = 1 ∧
      (createOneOffBuild emptyStore).1.name = "1" ∧
      (createOneOffBuild emptyStore).1.jobName = none ∧
      (createOneOffBuild emptyStore).1.status = .pending) ∧
    ∀ ops : List StoreOp,
      (createOneOffBuild (runStore ops)).1.name =
          toString (numOneOffs ops + 1) ∧
        (createOneOffBuild (runStore ops)).1.jobName = none ∧
        (createOneOffBuild (runStore ops)).1.status = .pending := by
  refine ⟨⟨rfl, rfl, rfl, rfl⟩, ?_⟩
  intro ops
  refine ⟨?_, rfl, rfl⟩
  simp only [createOneOffBuild, runStore]
  rw [oneOffCount_foldl, show emptyStore.oneOffCount = 0 from rfl, Nat.zero_add]

/-! ## Authorization accessor (`accessor.go`)

A faithful shallow embedding of the `accessor` package.  Go's
`map[string]interface{}` claims are modelled as association lists over a
small JSON value type; `strings.EqualFold` is modelled as
case-insensitive equality via lowercasing (the source only ever compares
`connector:user` strings, and the claims below do not depend on the
folding details). -/

/-- A raw claim value (`interface{}` holding a decoded JSON value). -/
inductive JSONVal where
  | str (s : String)
  | arr (elems : List JSONVal)
  | obj (fields : List (String × JSONVal))
  | other

/-- Map indexing with "missing key" reported as `none`. -/
def lookupField (fields : List (String × JSONVal)) (name : String) :
    Option JSONVal :=
  (fields.find? (fun f => f.1 = name)).map (·.2)

/-- Indexing a `map[string][]string` with Go's zero-value default. -/
def lookupStrings (m : List (String × List String)) (k : String) :
    List String :=
  (((m.find? (fun p => p.1 = k)).map (·.2)).getD [])

/-- `accessor.Verification`. -/
structure Verification where
  hasToken : Bool
  isTokenValid : Bool
  rawClaims : List (String × JSONVal)

/-- `atc.TeamAuth`: role name → auth config ("users"/"groups" lists). -/
abbrev TeamAuth := List (String × List (String × List String))

/-- A `db.Team` as the accessor consumes it: `Name()`, `Admin()`,
`Auth()`. -/
structure Team where
  name : String
  admin : Bool
  auth : TeamAuth

/-- The `access` struct. -/
structure Access where
  verification : Verification
  requiredRole : String
  systemClaimKey : String
  systemClaimValues : List String
  teams : List Team

/-- Role constants of the accessor package (declared outside the given
source files; the theorems below quantify over the required role, so
only their pairwise distinctness in `hasPermission`'s switch matters). -/
def OwnerRole : String := "owner"

def MemberRole : String := "member"

def OperatorRole : String := "pipeline-operator"

def ViewerRole : String := "viewer"

/-- `strings.EqualFold`, restricted to ASCII case folding. -/
def equalFold (a b : String) : Bool :=
  a.toLower == b.toLower

def Access.isAuthenticated (a : Access) : Bool :=
  a.verification.isTokenValid

/-- `claims()`: the raw claims when authenticated, empty otherwise. -/
def Access.claims (a : Access) : List (String × JSONVal) :=
  if a.isAuthenticated then a.verification.rawClaims else []

def Access.federatedClaims (a : Access) : List (String × JSONVal) :=
  match lookupField a.claims "federated_claims" with
  | some (.obj fields) => fields
  | _ => []

def Access.federatedClaim (a : Access) (name : String) : String :=
  match lookupField a.federatedClaims name with
  | some (.str s) => s
  | _ => ""

def Access.userName (a : Access) : String :=
  a.federatedClaim "user_name"

def Access.userID (a : Access) : String :=
  a.federatedClaim "user_id"

def Access.connectorID (a : Access) : String :=
  a.federatedClaim "connector_id"

def Access.groups (a : Access) : List String :=
  match lookupField a.claims "groups" with
  | some (.arr rawGroups) =>
    rawGroups.filterMap fun v =>
      match v with
      | .str g => some g
      | _ => none
  | _ => []

/-- Whether `rolesForTeam` puts `role` in the role set, given that
role's auth config: the allow-all-users backwards-compatibility branch,
the user loop, and the group loop of accessor.go lines 132-163. -/
def Access.roleGranted (a : Access) (roleAuth : List (String × List String)) :
    Bool :=
  let userAuth := lookupStrings roleAuth "users"
  let groupAuth := lookupStrings roleAuth "groups"
  (userAuth.isEmpty && groupAuth.isEmpty)
    || userAuth.any (fun user =>
        (a.userID != "" && equalFold user (a.connectorID ++ ":" ++ a.userID))
          || (a.userName != ""
              && equalFold user (a.connectorID ++ ":" ++ a.userName)))
    || groupAuth.any (fun group =>
        a.groups.any (fun claimGroup =>
          claimGroup != ""
            && equalFold group (a.connectorID ++ ":" ++ claimGroup)))

/-- `rolesForTeam`: the roles of the team's auth config granted to this
caller (the Go code materialises the set built by `roleGranted`). -/
def Access.rolesForTeam (a : Access) (auth : TeamAuth) : List String :=
  (auth.filter (fun ra => a.roleGranted ra.2)).map (·.1)

/-- `hasPermission`: the role-hierarchy switch on the required role. -/
def Access.hasPermission (a : Access) (role : String) : Bool :=
  if a.requiredRole = OwnerRole then role == OwnerRole
  else if a.requiredRole = MemberRole then
    role == OwnerRole || role == MemberRole
  else if a.requiredRole = OperatorRole then
    role == OwnerRole || role == MemberRole || role == OperatorRole
  else if a.requiredRole = ViewerRole then
    role == OwnerRole || role == MemberRole || role == OperatorRole
      || role == ViewerRole
  else false

/-- `hasRequiredRole`: some granted role passes `hasPermission`. -/
def Access.hasRequiredRole (a : Access) (auth : TeamAuth) : Bool :=
  (a.rolesForTeam auth).any (fun teamRole => a.hasPermission teamRole)

/-- `teamRoles()`: team name → granted roles, for teams with any. -/
def Access.teamRoles (a : Access) : List (String × List String) :=
  a.teams.filterMap fun team =>
    let roles := a.rolesForTeam team.auth
    if roles.isEmpty then none else some (team.name, roles)

/-- `adminTeams()`. -/
def Access.adminTeams (a : Access) : List String :=
  (a.teams.filter (·.admin)).map (·.name)

/-- `IsAdmin()`: an "owner" role on some admin team. -/
def Access.isAdmin (a : Access) : Bool :=
  a.adminTeams.any fun adminTeam =>
    (lookupStrings a.teamRoles adminTeam).any (fun role => role == "owner")

/-- `TeamNames()`. -/
def Access.teamNames (a : Access) : List String :=
  (a.teams.filter (fun team => a.isAdmin || a.hasRequiredRole team.auth)).map
    (·.name)

/-- `IsAuthorized(teamName)`. -/
def Access.isAuthorized (a : Access) (teamName : String) : Bool :=
  a.isAdmin || (a.teamNames).contains teamName

/-- C10: if a role's auth config lists no users and no groups,
`rolesForTeam` grants that role to every caller (the backwards
compatibility branch fires whatever the caller's token or claims), so
`hasRequiredRole` — and `IsAuthorized` for that team — succeeds for any
caller whose required-role check that role satisfies. -/
theorem allow_all_users_c10 (a : Access) (auth : TeamAuth) (role : String)
    (roleAuth : List (String × List String))
    (hmem : (role, roleAuth) ∈ auth)
    (husers : lookupStrings roleAuth "users" = [])
    (hgroups : lookupStrings roleAuth "groups" = []) :
    role ∈ a.rolesForTeam auth ∧
      (a.hasPermission role = true → a.hasRequiredRole auth = true) ∧
      (∀ t ∈ a.teams, t.auth = auth → a.hasPermission role = true →
        a.isAuthorized t.name = true) := by
  have hgrant : a.roleGranted roleAuth = true := by
    simp [Access.roleGranted, husers, hgroups]
  have hrole : role ∈ a.rolesForTeam auth := by
    unfold Access.rolesForTeam
    exact List.mem_map.mpr
      ⟨(role, roleAuth), List.mem_filter.mpr ⟨hmem, hgrant⟩, rfl⟩
  have hreq : a.hasPermission role = true → a.hasRequiredRole auth = true := by
    intro hperm
    exact List.any_eq_true.mpr ⟨role, hrole, hperm⟩
  refine ⟨hrole, hreq, ?_⟩
  intro t ht hauth hperm
  have hnames : t.name ∈ a.teamNames := by
    unfold Access.teamNames
    refine List.mem_map.mpr ⟨t, List.mem_filter.mpr ⟨ht, ?_⟩, rfl⟩
    rw [hauth]
    simp [hreq hperm]
  unfold Access.isAuthorized
  simp [List.contains, hnames, List.elem_iff.mpr hnames]

/-- An unauthenticated caller with no token and empty claims, whose one
team allows all users the owner role. -/
def anonAccess : Access :=
  { verification := { hasToken := false, isTokenValid := false, rawClaims := [] }
    requiredRole := ViewerRole
    systemClaimKey := ""
    systemClaimValues := []
    teams := [{ name := "main", admin := false, auth := [("owner", [])] }] }

/-- Witness for C10: the anonymous caller is granted "owner" on the
allow-all team and is authorized for it. -/
theorem allow_all_users_c10_witness :
    "owner" ∈ anonAccess.rolesForTeam [("owner", [])] ∧
      anonAccess.hasRequiredRole [("owner", [])] = true ∧
      anonAccess.isAuthorized "main" = true :=
  ⟨(allow_all_users_c10 anonAccess [("owner", [])] "owner" []
      (by simp) rfl rfl).1,
   (allow_all_users_c10 anonAccess [("owner", [])] "owner" []
      (by simp) rfl rfl).2.1 rfl,
   (allow_all_users_c10 anonAccess [("owner", [])] "owner" []
      (by simp) rfl rfl).2.2
     { name := "main", admin := false, auth := [("owner", [])] }
     (by simp [anonAccess]) rfl rfl⟩

end Concourse
